import Mathlib
/-!
Shallow embedding of mlagents/trainers/trainer_metrics.py (Kyushik/ml-agents).

Modelling conventions:
- Python floats that hold clock readings and durations are modelled as rationals;
  clock readings (time() / perf_counter() results) are explicit inputs to the
  operations that read the clock.
- Python dicts are association lists with first-match lookup and first-match
  update; the source only ever inserts a key that is absent, so keys are unique
  in every reachable state and first-match semantics coincide with dict
  semantics (insertion order is kept, as in a Python dict).
- Fallible operations (assert failures, IndexError from list indexing/pop)
  return Option: none models a raised exception.
- TimerStack.stack holds aliasing references into the mutable tree in Python;
  here it holds the paths (lists of child names from the root) of those nodes,
  and mutations through a reference become updates of the tree at that path.
-/

/-- A node of the hierarchical timer tree (class TimerNode, slots
children / _start_time / total / count).  The source uses the float -1.0 as
the "not running" sentinel for _start_time. -/
inductive TimerNode : Type where
  | mk (children : List (String × TimerNode)) (start_time : ℚ) (total : ℚ) (count : ℕ)

def TimerNode.children : TimerNode → List (String × TimerNode)
  | .mk cs _ _ _ => cs

def TimerNode._start_time : TimerNode → ℚ
  | .mk _ st _ _ => st

def TimerNode.total : TimerNode → ℚ
  | .mk _ _ t _ => t

def TimerNode.count : TimerNode → ℕ
  | .mk _ _ _ c => c

/-- TimerNode._is_running: `self._start_time != -1.0`. -/
def TimerNode._is_running (n : TimerNode) : Bool := decide (n._start_time ≠ -1)

/-- TimerNode.__init__: empty children, sentinel start time, zero totals. -/
def TimerNode.initNode : TimerNode := .mk [] (-1) 0 0

/-- TimerNode._start: asserts the node is not running, then records the
current perf_counter() reading (the `now` argument) as _start_time.
A failed assert (already running) is modelled as none. -/
def TimerNode._start (n : TimerNode) (now : ℚ) : Option TimerNode :=
  if n._is_running then none
  else some (.mk n.children now n.total n.count)

/-- TimerNode._end: asserts the node is running, then adds
elapsed = now - _start_time to total, increments count and resets the
sentinel.  A failed assert (stopped timer) is modelled as none. -/
def TimerNode._end (n : TimerNode) (now : ℚ) : Option TimerNode :=
  if n._is_running then
    some (.mk n.children (-1) (n.total + (now - n._start_time)) (n.count + 1))
  else none

/-- One emitted metrics row (TrainerMetrics._add_row).  The row holds the
brain name followed by the five values appended by the source; the source
additionally renders floats with format(c, ".3f") into strings when building
the row, which only affects presentation and is not modelled (no claim is
about the textual rendering). -/
structure MetricsRow where
  brain : String
  delta_policy_update : Option ℚ
  delta_train_start : ℚ
  delta_last_experience_collection : Option ℚ
  last_buffer_length : Option ℤ
  last_mean_return : Option ℚ

/-- The flat per-brain recorder (class TrainerMetrics).  Fields that Python
initialises to None are Options. -/
structure TrainerMetrics where
  path : String
  brain_name : String
  rows : List MetricsRow
  time_start_experience_collection : Option ℚ
  time_training_start : ℚ
  last_buffer_length : Option ℤ
  last_mean_return : Option ℚ
  time_policy_update_start : Option ℚ
  delta_last_experience_collection : Option ℚ
  delta_policy_update : Option ℚ

/-- TrainerMetrics.__init__ (`now` is the time() reading taken there). -/
def TrainerMetrics.initTM (path brain_name : String) (now : ℚ) : TrainerMetrics :=
  { path := path
    brain_name := brain_name
    rows := []
    time_start_experience_collection := none
    time_training_start := now
    last_buffer_length := none
    last_mean_return := none
    time_policy_update_start := none
    delta_last_experience_collection := none
    delta_policy_update := none }

/-- Python truthiness of an optional float: None and 0.0 are falsy. -/
def truthyQ : Option ℚ → Bool
  | none => false
  | some q => decide (q ≠ 0)

/-- TrainerMetrics.start_experience_collection_timer (idempotent begin). -/
def TrainerMetrics.start_experience_collection_timer
    (m : TrainerMetrics) (now : ℚ) : TrainerMetrics :=
  if m.time_start_experience_collection = none then
    { m with time_start_experience_collection := some now }
  else m

/-- TrainerMetrics.end_experience_collection_timer: accumulates the elapsed
delta when a (truthy) start exists, then always clears the start. -/
def TrainerMetrics.end_experience_collection_timer
    (m : TrainerMetrics) (now : ℚ) : TrainerMetrics :=
  let m1 :=
    if truthyQ m.time_start_experience_collection then
      let curr_delta := now - (m.time_start_experience_collection.getD 0)
      match m.delta_last_experience_collection with
      | none => { m with delta_last_experience_collection := some curr_delta }
      | some d => { m with delta_last_experience_collection := some (d + curr_delta) }
    else m
  { m1 with time_start_experience_collection := none }

/-- TrainerMetrics.add_delta_step (if-else on truthiness of the accumulator). -/
def TrainerMetrics.add_delta_step (m : TrainerMetrics) (delta : ℚ) : TrainerMetrics :=
  if truthyQ m.delta_last_experience_collection then
    let d := m.delta_last_experience_collection.getD 0
    { m with delta_last_experience_collection := some (d + delta) }
  else { m with delta_last_experience_collection := some delta }

/-- TrainerMetrics.start_policy_update_timer. -/
def TrainerMetrics.start_policy_update_timer
    (m : TrainerMetrics) (number_experiences : ℤ) (mean_return : ℚ) (now : ℚ) :
    TrainerMetrics :=
  { m with
      last_buffer_length := some number_experiences
      last_mean_return := some mean_return
      time_policy_update_start := some now }

/-- TrainerMetrics._add_row: appends one row built from the current fields and
clears the experience-collection accumulator. -/
def TrainerMetrics._add_row (m : TrainerMetrics) (delta_train_start : ℚ) : TrainerMetrics :=
  { m with
      delta_last_experience_collection := none
      rows := m.rows ++
        [{ brain := m.brain_name
           delta_policy_update := m.delta_policy_update
           delta_train_start := delta_train_start
           delta_last_experience_collection := m.delta_last_experience_collection
           last_buffer_length := m.last_buffer_length
           last_mean_return := m.last_mean_return }] }

/-- TrainerMetrics.end_policy_update.  Python evaluates time() twice
(nowA for the policy-update delta, nowB for delta_train_start).  The branch
`if self.time_policy_update_start:` is Python truthiness: None (and the
never-occurring reading 0.0) selects the zero substitute.  After the
assignments, the LOGGER.debug call is made: its argument is an eagerly
evaluated str.format (built before any logger level check) whose
float-format slots (0.3f presentation) receive self.delta_policy_update,
delta_train_start, self.delta_last_experience_collection and
self.last_mean_return; formatting None with a float spec raises TypeError,
so when delta_policy_update, delta_last_experience_collection or
last_mean_return is None at that point, the call raises and _add_row never
runs (delta_train_start is always a number, and last_buffer_length fills a
bare unformatted slot, so neither can raise).  The result pairs the state
after the effects that did happen with a flag that is true when the
TypeError propagated out of the method. -/
def TrainerMetrics.end_policy_update (m : TrainerMetrics) (nowA nowB : ℚ) :
    TrainerMetrics × Bool :=
  let m1 :=
    if truthyQ m.time_policy_update_start then
      let st := m.time_policy_update_start.getD 0
      { m with delta_policy_update := some (nowA - st) }
    else { m with delta_policy_update := some 0 }
  let delta_train_start := nowB - m.time_training_start
  if m1.delta_policy_update = none ∨ m1.delta_last_experience_collection = none ∨
      m1.last_mean_return = none then
    (m1, true)
  else
    (m1._add_row delta_train_start, false)

/-- First-match lookup in a children association list (dict.get(name)). -/
def lookupChild : List (String × TimerNode) → String → Option TimerNode
  | [], _ => none
  | (k, v) :: rest, name => if k = name then some v else lookupChild rest name

/-- First-match update of the entry at a key (mutation of dict[name]); no-op
when the key is absent.  Keys are unique in every reachable state, so
first-match semantics coincide with dict semantics. -/
def updateChild : List (String × TimerNode) → String → (TimerNode → TimerNode) →
    List (String × TimerNode)
  | [], _, _ => []
  | (k, v) :: rest, name, f =>
    if k = name then (k, f v) :: rest else (k, v) :: updateChild rest name f

/-- The node reached from `n` by following a list of child names. -/
def lookupPath : TimerNode → List String → Option TimerNode
  | n, [] => some n
  | n, a :: rest =>
    match lookupChild n.children a with
    | none => none
    | some c => lookupPath c rest

/-- Apply `f` to the node reached by the path (mutation through a reference
held into the tree); no-op when the path is dangling. -/
def updatePath : TimerNode → List String → (TimerNode → TimerNode) → TimerNode
  | n, [], f => f n
  | n, a :: rest, f =>
    .mk (updateChild n.children a (fun c => updatePath c rest f))
      n._start_time n.total n.count

/-- Class TimerStack: the tree root plus the active-path stack.  In Python
`stack` is a list of references to nodes of the tree; here each element is
the path of that node from the root (the root itself is the path []). -/
structure TimerStack where
  root : TimerNode
  stack : List (List String)

/-- TimerStack.__init__: a fresh root node, immediately started (_start on a
fresh node always succeeds and records the perf_counter() reading `now`), and
a stack holding just the root. -/
def TimerStack.initTS (now : ℚ) : TimerStack :=
  { root := .mk [] now 0 0, stack := [[]] }

/-- TimerStack.push: reads the node at the top of the stack (stack[-1] raises
IndexError on an empty stack, modelled as none), looks `name` up among its
children, creating and inserting a fresh TimerNode when absent, appends the
child to the stack, and returns it. -/
def TimerStack.push (s : TimerStack) (name : String) : Option (TimerStack × TimerNode) :=
  match s.stack.getLast? with
  | none => none
  | some p =>
    match lookupPath s.root p with
    | none => none
    | some current =>
      match lookupChild current.children name with
      | some next_timer =>
        some ({ root := s.root, stack := s.stack ++ [p ++ [name]] }, next_timer)
      | none =>
        let ins := fun m : TimerNode =>
          TimerNode.mk (m.children ++ [(name, TimerNode.initNode)]) m._start_time m.total m.count
        some ({ root := updatePath s.root p ins, stack := s.stack ++ [p ++ [name]] },
          TimerNode.initNode)

/-- TimerStack.pop: `self.stack.pop()` — removes the last element with no
guard; Python list.pop raises IndexError only on an empty list. -/
def TimerStack.pop (s : TimerStack) : Option TimerStack :=
  match s.stack with
  | [] => none
  | _ :: _ => some { s with stack := s.stack.dropLast }

/-- Calling _start on the node at the top of the stack (what
hierarchical_timer does with the node push returned). -/
def TimerStack.startTop (s : TimerStack) (now : ℚ) : Option TimerStack :=
  match s.stack.getLast? with
  | none => none
  | some p =>
    match lookupPath s.root p with
    | none => none
    | some n =>
      match n._start now with
      | none => none
      | some n2 => some { s with root := updatePath s.root p (fun _ => n2) }

/-- Calling _end on the node at path `p` (the node reference that
hierarchical_timer captured at push time). -/
def TimerStack.endAt (s : TimerStack) (p : List String) (now : ℚ) : Option TimerStack :=
  match lookupPath s.root p with
  | none => none
  | some n =>
    match n._end now with
    | none => none
    | some n2 => some { s with root := updatePath s.root p (fun _ => n2) }

/-- Calling _end on the node at the top of the stack. -/
def TimerStack.endTop (s : TimerStack) (now : ℚ) : Option TimerStack :=
  match s.stack.getLast? with
  | none => none
  | some p => s.endAt p now

/-- One node record of the snapshot produced by get_timing_tree: keys
total / count / children / self of the result dict.  `children = none` models
the children key being absent from the dict (the source only adds the key when
the node has children). -/
inductive TimingRec : Type where
  | mk (total : ℚ) (count : ℕ) (children : Option (List (String × TimingRec))) (selfTime : ℚ)

def TimingRec.total : TimingRec → ℚ
  | .mk t _ _ _ => t

def TimingRec.count : TimingRec → ℕ
  | .mk _ c _ _ => c

def TimingRec.children : TimingRec → Option (List (String × TimingRec))
  | .mk _ _ cs _ => cs

def TimingRec.selfTime : TimingRec → ℚ
  | .mk _ _ _ s => s

/-- The child_total loop accumulator: sum of the total entries of the already
built child records. -/
def sumTotals : List (String × TimingRec) → ℚ
  | [] => 0
  | kr :: rest => kr.2.total + sumTotals rest

mutual
/-- TimerStack.get_timing_tree on a given node (the `node is not None` path):
res = {total, count}; when the children dict is non-empty (Python truthiness
of a dict) a children key is added with the name-tagged child records and
child_total is their summed total, otherwise child_total stays 0.0 and no
children key exists; finally res["self"] = max(0.0, total - child_total). -/
def getTimingTree : TimerNode → TimingRec
  | .mk cs _ tot cnt =>
    match cs with
    | [] => .mk tot cnt none (max 0 (tot - 0))
    | _ :: _ =>
      let recs := getTimingTreeList cs
      .mk tot cnt (some recs) (max 0 (tot - sumTotals recs))
/-- The loop over node.children.items() building name-tagged child records. -/
def getTimingTreeList : List (String × TimerNode) → List (String × TimingRec)
  | [] => []
  | (k, c) :: rest => (k, getTimingTree c) :: getTimingTreeList rest
end

/-- TimerStack.get_timing_tree called with node=None: first calls _end on the
root (assert: the root must still be running), then recurses from the root. -/
def TimerStack.get_timing_tree (s : TimerStack) (now : ℚ) : Option TimingRec :=
  (s.root._end now).map getTimingTree

/-- hierarchical_timer, the @contextmanager generator helper.  `body` is the
with-block's code: it receives the state after push+start and returns the
state after its own effects together with a flag that is true when it raised.
The generator runs push(name) and _start() on the pushed node (whose path p2
the reference `next_timer` pins down), yields, and on normal completion
resumes with _end() on that node followed by pop().  The source has no
try/finally around the yield, so when the with-body raises, the exception is
thrown into the generator at the yield point and propagates: the code after
the yield (the _end and the pop) never runs.  The Bool in the result records
whether an exception propagated out of the with statement. -/
def hierarchical_timer (name : String) (tStart tEnd : ℚ)
    (body : TimerStack → TimerStack × Bool) (s : TimerStack) : TimerStack × Bool :=
  match s.push name with
  | none => (s, true)
  | some (s1, _) =>
    match s1.stack.getLast? with
    | none => (s1, true)
    | some p2 =>
      match s1.startTop tStart with
      | none => (s1, true)
      | some s2 =>
        match body s2 with
        | (s3, true) => (s3, true)
        | (s3, false) =>
          match s3.endAt p2 tEnd with
          | none => (s3, true)
          | some s4 =>
            match s4.pop with
            | none => (s4, true)
            | some s5 => (s5, false)

/-- Python str.replace for a non-empty pattern (leftmost-first,
non-overlapping, every occurrence), over character lists.  The pattern is
passed as head p0 plus tail ptl so that it is structurally non-empty (the
source calls replace with the literal pattern 'csv').  The first argument is
recursion fuel: any fuel at least the length of the scanned list yields the
same result (replaceAllGo_fuel below), and the replaceAll wrapper passes the
length itself, so the fuel never runs out. -/
def replaceAllGo (p0 : Char) (ptl rep : List Char) : ℕ → List Char → List Char
  | 0, s => s
  | _ + 1, [] => []
  | fuel + 1, c :: rest =>
    if (p0 :: ptl).isPrefixOf (c :: rest) then
      rep ++ replaceAllGo p0 ptl rep fuel (rest.drop ptl.length)
    else c :: replaceAllGo p0 ptl rep fuel rest

/-- str.replace with a non-empty pattern p0 :: ptl and replacement rep. -/
def replaceAll (p0 : Char) (ptl rep s : List Char) : List Char :=
  replaceAllGo p0 ptl rep s.length s

/-- Whether the (non-empty) pattern occurs anywhere in the list. -/
def hasOccur (p0 : Char) (ptl : List Char) : List Char → Bool
  | [] => false
  | c :: rest => (p0 :: ptl).isPrefixOf (c :: rest) || hasOccur p0 ptl rest

/-- The tree-file path computed in write_training_metrics:
`json_path = self.path.replace('csv', 'hierarchy.json')` — Python str.replace
substitutes every occurrence of 'csv' anywhere in the path string. -/
def json_path (path : String) : String :=
  ⟨replaceAll 'c' ['s', 'v'] "hierarchy.json".data path.data⟩

mutual
/-- Every timer in the subtree rooted at this node is stopped. -/
def allStopped : TimerNode → Bool
  | .mk cs st _ _ => (decide (st = -1)) && allStoppedList cs
/-- Every timer in every subtree of the listed children is stopped. -/
def allStoppedList : List (String × TimerNode) → Bool
  | [] => true
  | (_, c) :: rest => allStopped c && allStoppedList rest
end

/-- All child subtrees are stopped except the one of the first entry keyed
`a`, which is skipped (it is the child lying on the active path). -/
def allStoppedExceptFirst (a : String) : List (String × TimerNode) → Bool
  | [] => true
  | (k, v) :: rest =>
    if k = a then allStoppedList rest else allStopped v && allStoppedExceptFirst a rest

/-- The timing-state invariant along an active path t: every node on the
path (including its last node) is running, each path step exists, and every
timer hanging off the path is stopped. -/
def RunOK : TimerNode → List String → Bool
  | n, [] => n._is_running && allStoppedList n.children
  | n, a :: rest =>
    n._is_running &&
    (match lookupChild n.children a with
     | none => false
     | some c => RunOK c rest) &&
    allStoppedExceptFirst a n.children

/-- The shape of the active-path stack under balanced use: the chain of all
prefixes of the top path in increasing order, starting with the root path []. -/
inductive StackChain : List (List String) → List String → Prop where
  | root : StackChain [[]] []
  | step (st : List (List String)) (t : List String) (name : String) :
      StackChain st t → StackChain (st ++ [t ++ [name]]) (t ++ [name])

/-- A properly nested sequence of stack operations: region name body is
push(name); _start; body; _end; pop, and programs compose sequentially (skip
is the empty sequence).  This is the language of "each push followed by
start, each end followed by pop, pushes and pops balanced". -/
inductive Prog : Type where
  | skip : Prog
  | region : String → Prog → Prog
  | seq : Prog → Prog → Prog

/-- Run a program against a TimerStack.  clock supplies successive
perf_counter() readings (the index advances at every _start/_end); the result
is the final state, the next clock index, and the trace of the states after
each primitive stack operation (push, start, end, pop).  none means one of
the operations raised. -/
def runP (clock : ℕ → ℚ) : Prog → ℕ → TimerStack → Option (TimerStack × ℕ × List TimerStack)
  | .skip, k, s => some (s, k, [])
  | .seq p q, k, s =>
    match runP clock p k s with
    | none => none
    | some (s1, k1, tr1) =>
      match runP clock q k1 s1 with
      | none => none
      | some (s2, k2, tr2) => some (s2, k2, tr1 ++ tr2)
  | .region name body, k, s =>
    match s.push name with
    | none => none
    | some (s1, _) =>
      match s1.startTop (clock k) with
      | none => none
      | some s2 =>
        match runP clock body (k + 1) s2 with
        | none => none
        | some (s3, k3, tr3) =>
          match s3.endTop (clock k3) with
          | none => none
          | some s4 =>
            match s4.pop with
            | none => none
            | some s5 => some (s5, k3 + 1, s1 :: s2 :: tr3 ++ [s4, s5])

@[simp] theorem TimerNode.children_mk (cs : List (String × TimerNode)) (st t : ℚ) (c : ℕ) :
    (TimerNode.mk cs st t c).children = cs := rfl

@[simp] theorem TimerNode.start_time_mk (cs : List (String × TimerNode)) (st t : ℚ) (c : ℕ) :
    (TimerNode.mk cs st t c)._start_time = st := rfl

@[simp] theorem TimerNode.total_mk (cs : List (String × TimerNode)) (st t : ℚ) (c : ℕ) :
    (TimerNode.mk cs st t c).total = t := rfl

@[simp] theorem TimerNode.count_mk (cs : List (String × TimerNode)) (st t : ℚ) (c : ℕ) :
    (TimerNode.mk cs st t c).count = c := rfl

/-- Claim C4: on a running TimerNode (start_time present), _end adds the
elapsed duration (now minus start_time) to total, increments count by exactly
one, clears start_time back to the not-running sentinel, and changes no other
field (children are kept as they were). -/
theorem end_spec (n : TimerNode) (now : ℚ) (h : n._is_running = true) :
    n._end now =
      some (.mk n.children (-1) (n.total + (now - n._start_time)) (n.count + 1)) := by
  simp [TimerNode._end, h]

/-- Claim C4, witness: _end on a node that started at 5, evaluated at time 7,
adds 2 to the accumulated total 2, bumps count from 3 to 4 and stops it. -/
theorem end_spec_witness :
    (TimerNode.mk [] 5 2 3)._end 7 = some (.mk [] (-1) (2 + (7 - 5)) (3 + 1)) :=
  end_spec (TimerNode.mk [] 5 2 3) 7 (by decide)

/-- Claim C5: _start on an already-running node always fails (assert), _end on
a stopped node always fails (assert), and under the correct preconditions the
error branch is unreachable (_start on a stopped node and _end on a running
node always succeed). -/
theorem start_end_precondition_spec (n : TimerNode) (now : ℚ) :
    (n._is_running = true → n._start now = none) ∧
    (n._is_running = false → n._end now = none) ∧
    (n._is_running = false → (n._start now).isSome = true) ∧
    (n._is_running = true → (n._end now).isSome = true) := by
  cases h : n._is_running <;> simp [TimerNode._start, TimerNode._end, h]

/-- Claim C5, witness: a node running since time 5 rejects _start, and a
stopped node rejects _end. -/
theorem start_end_precondition_witness :
    (TimerNode.mk [] 5 0 0)._start 9 = none ∧ (TimerNode.mk [] (-1) 0 0)._end 9 = none :=
  ⟨(start_end_precondition_spec (TimerNode.mk [] 5 0 0) 9).1 (by decide),
   (start_end_precondition_spec (TimerNode.mk [] (-1) 0 0) 9).2.1 (by decide)⟩

/-- Claim C8 is refuted by the code (code bug): on a recorder that never saw
start_policy_update_timer, end_policy_update does substitute the zero
duration, but the eagerly evaluated LOGGER.debug format then applies the
float presentation 0.3f to last_mean_return — still None, since only
start_policy_update_timer ever sets it — and raises TypeError before
_add_row runs, so the call fails (flag true) and appends no row, against the
claim that it avoids failing and still appends one row. -/
theorem end_policy_update_no_start_raises :
    ((TrainerMetrics.initTM "p" "b" 1).end_policy_update 4 5).2 = true ∧
    ((TrainerMetrics.initTM "p" "b" 1).end_policy_update 4 5).1.delta_policy_update = some 0 ∧
    ((TrainerMetrics.initTM "p" "b" 1).end_policy_update 4 5).1.rows.length = 0 := by
  refine ⟨?_, ?_, ?_⟩ <;> rfl

/-- Claim C9: end_policy_update never clears time_policy_update_start, so in
the sequence start; end; end (no second start) the second end computes its
duration from the stale first start timestamp instead of substituting 0: it
sets delta to t3a - t1.  The hypothesis hd (experience-collection data is
present) lets the first end complete normally and append its row; its
_add_row clears the accumulator to None, so the second end — after storing
the stale delta — raises TypeError in the eager debug format and appends no
second row.  The hypothesis 0 < t1 reflects that time() readings are
strictly positive (the zero substitution is selected by Python truthiness,
which a reading of exactly 0.0 would also trigger; a positive wall clock
never does). -/
theorem end_policy_update_stale_start_spec (m : TrainerMetrics) (n : ℤ)
    (r d t1 t2a t2b t3a t3b : ℚ) (h1 : 0 < t1)
    (hd : m.delta_last_experience_collection = some d) :
    ((m.start_policy_update_timer n r t1).end_policy_update t2a t2b).1.time_policy_update_start
        = some t1 ∧
    ((m.start_policy_update_timer n r t1).end_policy_update t2a t2b).2 = false ∧
    ((m.start_policy_update_timer n r t1).end_policy_update t2a t2b).1.delta_policy_update
        = some (t2a - t1) ∧
    ((m.start_policy_update_timer n r t1).end_policy_update t2a t2b).1.rows.length
        = m.rows.length + 1 ∧
    ((((m.start_policy_update_timer n r t1).end_policy_update t2a t2b).1.end_policy_update
        t3a t3b).1.delta_policy_update = some (t3a - t1)) ∧
    (((m.start_policy_update_timer n r t1).end_policy_update t2a t2b).1.end_policy_update
        t3a t3b).2 = true ∧
    ((((m.start_policy_update_timer n r t1).end_policy_update t2a t2b).1.end_policy_update
        t3a t3b).1.rows.length =
      ((m.start_policy_update_timer n r t1).end_policy_update t2a t2b).1.rows.length) := by
  simp [TrainerMetrics.start_policy_update_timer, TrainerMetrics.end_policy_update,
    TrainerMetrics._add_row, truthyQ, h1.ne', hd]

/-- Claim C9, witness: after add_delta_step 2 (so experience data is
present), start at time 3, end at 5 (delta 2, row appended), end again at 9
without restarting: the second delta is 9 - 3 = 6 from the stale start, the
second end raises in the debug format, and no second row is appended. -/
theorem end_policy_update_stale_start_witness :
    ((((TrainerMetrics.initTM "p" "b" 1).add_delta_step 2).start_policy_update_timer
        10 0 3).end_policy_update 5 5).1.time_policy_update_start = some 3 ∧
    ((((TrainerMetrics.initTM "p" "b" 1).add_delta_step 2).start_policy_update_timer
        10 0 3).end_policy_update 5 5).2 = false ∧
    ((((TrainerMetrics.initTM "p" "b" 1).add_delta_step 2).start_policy_update_timer
        10 0 3).end_policy_update 5 5).1.delta_policy_update = some (5 - 3) ∧
    ((((TrainerMetrics.initTM "p" "b" 1).add_delta_step 2).start_policy_update_timer
        10 0 3).end_policy_update 5 5).1.rows.length =
      ((TrainerMetrics.initTM "p" "b" 1).add_delta_step 2).rows.length + 1 ∧
    (((((TrainerMetrics.initTM "p" "b" 1).add_delta_step 2).start_policy_update_timer
        10 0 3).end_policy_update 5 5).1.end_policy_update 9 9).1.delta_policy_update
        = some (9 - 3) ∧
    (((((TrainerMetrics.initTM "p" "b" 1).add_delta_step 2).start_policy_update_timer
        10 0 3).end_policy_update 5 5).1.end_policy_update 9 9).2 = true ∧
    ((((((TrainerMetrics.initTM "p" "b" 1).add_delta_step 2).start_policy_update_timer
        10 0 3).end_policy_update 5 5).1.end_policy_update 9 9).1.rows.length =
      ((((TrainerMetrics.initTM "p" "b" 1).add_delta_step 2).start_policy_update_timer
        10 0 3).end_policy_update 5 5).1.rows.length) :=
  end_policy_update_stale_start_spec ((TrainerMetrics.initTM "p" "b" 1).add_delta_step 2)
    10 0 2 3 5 5 9 9 (by norm_num) rfl

theorem lookupPath_append (p q : List String) (n : TimerNode) :
    lookupPath n (p ++ q) = (lookupPath n p).bind (fun m => lookupPath m q) := by
  induction p generalizing n with
  | nil => simp [lookupPath]
  | cons a rest ih =>
    simp only [List.cons_append, lookupPath]
    cases lookupChild n.children a with
    | none => simp
    | some c => simp [ih]

theorem lookupChild_updateChild (cs : List (String × TimerNode)) (a : String)
    (f : TimerNode → TimerNode) :
    lookupChild (updateChild cs a f) a = (lookupChild cs a).map f := by
  induction cs with
  | nil => simp [lookupChild, updateChild]
  | cons kv rest ih =>
    obtain ⟨k, v⟩ := kv
    by_cases hk : k = a <;> simp [lookupChild, updateChild, hk, ih]

theorem lookupPath_updatePath (p : List String) (n : TimerNode) (f : TimerNode → TimerNode) :
    lookupPath (updatePath n p f) p = (lookupPath n p).map f := by
  induction p generalizing n with
  | nil => simp [lookupPath, updatePath]
  | cons a rest ih =>
    simp only [lookupPath, updatePath, TimerNode.children_mk, lookupChild_updateChild]
    cases lookupChild n.children a with
    | none => simp
    | some c => simp [ih]

theorem lookupChild_append_of_none (cs : List (String × TimerNode)) (name : String)
    (v : TimerNode) (h : lookupChild cs name = none) :
    lookupChild (cs ++ [(name, v)]) name = some v := by
  induction cs with
  | nil => simp [lookupChild]
  | cons kv rest ih =>
    obtain ⟨k, w⟩ := kv
    by_cases hk : k = name
    · simp [lookupChild, hk] at h
    · simp [lookupChild, hk] at h ⊢
      exact ih h

/-- Claim C3: push(name) looks `name` up among the children of the node at the
top of the active path; when absent it inserts a single fresh node under that
name (at the end, preserving insertion order), when present it reuses the
existing child unchanged (the tree is not modified at all, so no duplicate
child is ever created); in both cases the child's path is appended to the
active path and the child is returned with its running state, total and count
untouched. -/
theorem push_spec (s : TimerStack) (name : String) (p : List String) (cur : TimerNode)
    (hp : s.stack.getLast? = some p) (hcur : lookupPath s.root p = some cur) :
    ∃ s2 ret, s.push name = some (s2, ret) ∧
      s2.stack = s.stack ++ [p ++ [name]] ∧
      lookupPath s2.root (p ++ [name]) = some ret ∧
      (∀ c, lookupChild cur.children name = some c → ret = c ∧ s2.root = s.root) ∧
      (lookupChild cur.children name = none →
        ret = TimerNode.initNode ∧
        s2.root = updatePath s.root p (fun m =>
          TimerNode.mk (m.children ++ [(name, TimerNode.initNode)])
            m._start_time m.total m.count)) := by
  cases hc : lookupChild cur.children name with
  | some c =>
    refine ⟨{ root := s.root, stack := s.stack ++ [p ++ [name]] }, c, ?_, rfl, ?_, ?_, ?_⟩
    · simp only [TimerStack.push, hp, hcur, hc]
    · rw [lookupPath_append, hcur]
      simp [lookupPath, hc]
    · intro c2 hc2
      exact ⟨Option.some_injective _ hc2, rfl⟩
    · intro hnone
      exact absurd hnone (by simp)
  | none =>
    refine ⟨{ root := updatePath s.root p (fun m =>
        TimerNode.mk (m.children ++ [(name, TimerNode.initNode)])
          m._start_time m.total m.count), stack := s.stack ++ [p ++ [name]] },
      TimerNode.initNode, ?_, rfl, ?_, ?_, ?_⟩
    · simp only [TimerStack.push, hp, hcur, hc]
    · rw [lookupPath_append, lookupPath_updatePath, hcur]
      simp [lookupPath, lookupChild_append_of_none cur.children name TimerNode.initNode hc]
    · intro c2 hc2
      exact absurd hc2 (by simp)
    · intro _
      exact ⟨rfl, rfl⟩

/-- Claim C3, witness: pushing "a" on a fresh stack creates one child named
"a" under the root, appends its path and returns the fresh stopped node. -/
theorem push_spec_witness :
    ∃ s2 ret, (TimerStack.initTS 0).push "a" = some (s2, ret) ∧
      s2.stack = (TimerStack.initTS 0).stack ++ [[] ++ ["a"]] ∧
      lookupPath s2.root ([] ++ ["a"]) = some ret ∧
      (∀ c, lookupChild (TimerNode.mk [] 0 0 0).children "a" = some c →
        ret = c ∧ s2.root = (TimerStack.initTS 0).root) ∧
      (lookupChild (TimerNode.mk [] 0 0 0).children "a" = none →
        ret = TimerNode.initNode ∧
        s2.root = updatePath (TimerStack.initTS 0).root [] (fun m =>
          TimerNode.mk (m.children ++ [("a", TimerNode.initNode)])
            m._start_time m.total m.count)) :=
  push_spec (TimerStack.initTS 0) "a" [] (TimerNode.mk [] 0 0 0) rfl rfl

/-- Claim C10: TimerStack.pop removes the last stack element with no guard:
on a stack holding only the root it succeeds and leaves the active path empty
(the root is no longer present, with no exception raised), and a further pop
on the now-empty stack raises (IndexError from list.pop). -/
theorem pop_unguarded_spec (s : TimerStack) (h : s.stack.length = 1) :
    ∃ s2, s.pop = some s2 ∧ s2.stack = [] ∧ s2.pop = none := by
  obtain ⟨r, st⟩ := s
  cases st with
  | nil => simp at h
  | cons x tl =>
    cases tl with
    | nil => exact ⟨⟨r, []⟩, rfl, rfl, rfl⟩
    | cons y tl2 => simp at h

/-- Claim C10, witness: popping a freshly initialised stack (root only)
empties it; popping again fails. -/
theorem pop_unguarded_witness :
    ∃ s2, (TimerStack.initTS 0).pop = some s2 ∧ s2.stack = [] ∧ s2.pop = none :=
  pop_unguarded_spec (TimerStack.initTS 0) rfl

@[simp] theorem TimingRec.mk_total (t : ℚ) (c : ℕ)
    (cs : Option (List (String × TimingRec))) (s : ℚ) :
    (TimingRec.mk t c cs s).total = t := rfl

@[simp] theorem TimingRec.mk_count (t : ℚ) (c : ℕ)
    (cs : Option (List (String × TimingRec))) (s : ℚ) :
    (TimingRec.mk t c cs s).count = c := rfl

@[simp] theorem TimingRec.mk_children (t : ℚ) (c : ℕ)
    (cs : Option (List (String × TimingRec))) (s : ℚ) :
    (TimingRec.mk t c cs s).children = cs := rfl

@[simp] theorem TimingRec.mk_selfTime (t : ℚ) (c : ℕ)
    (cs : Option (List (String × TimingRec))) (s : ℚ) :
    (TimingRec.mk t c cs s).selfTime = s := rfl

/-- Claim C2: for every node, the record built by get_timing_tree has
self = max(0, total - sum of the children records' totals) — clamped at zero,
never negative — and the children key is absent (none), not an empty list,
exactly when the node has no children. -/
theorem get_timing_tree_self_and_children (n : TimerNode) :
    (getTimingTree n).selfTime =
      max 0 ((getTimingTree n).total - sumTotals ((getTimingTree n).children.getD [])) ∧
    ((getTimingTree n).children = none ↔ n.children = []) := by
  obtain ⟨cs, st, tot, cnt⟩ := n
  cases cs with
  | nil => simp [getTimingTree, sumTotals]
  | cons kv rest => simp [getTimingTree]

/-- Claim C1 is refuted by the code: on a fresh stack (active-path depth 1),
entering hierarchical_timer "w" with a body that raises immediately leaves the
exception propagating (flag true) with active-path depth 2 — the _end/pop
after the yield were skipped because there is no try/finally, so the depth
after exit does not equal the depth before entry on the failure path. -/
theorem hierarchical_timer_leak_on_raise :
    (TimerStack.initTS 0).stack.length = 1 ∧
    (hierarchical_timer "w" 1 2 (fun st => (st, true)) (TimerStack.initTS 0)).2 = true ∧
    (hierarchical_timer "w" 1 2 (fun st => (st, true))
      (TimerStack.initTS 0)).1.stack.length = 2 := by
  refine ⟨rfl, ?_, ?_⟩ <;> rfl

theorem replaceAllGo_nilList (p0 : Char) (ptl rep : List Char) (fuel : ℕ) :
    replaceAllGo p0 ptl rep fuel [] = [] := by
  cases fuel <;> rfl

theorem replaceAllGo_fuel (p0 : Char) (ptl rep : List Char) :
    ∀ fuel fuel2 s, s.length ≤ fuel → s.length ≤ fuel2 →
      replaceAllGo p0 ptl rep fuel s = replaceAllGo p0 ptl rep fuel2 s := by
  intro fuel
  induction fuel with
  | zero =>
    intro fuel2 s hs _
    rw [Nat.le_zero, List.length_eq_zero] at hs
    subst hs
    rw [replaceAllGo_nilList, replaceAllGo_nilList]
  | succ f ih =>
    intro fuel2 s hs hs2
    cases s with
    | nil => rw [replaceAllGo_nilList, replaceAllGo_nilList]
    | cons c rest =>
      cases fuel2 with
      | zero => simp at hs2
      | succ g =>
        simp only [List.length_cons, Nat.succ_le_succ_iff] at hs hs2
        have hd : (rest.drop ptl.length).length ≤ rest.length := by
          rw [List.length_drop]
          omega
        rw [replaceAllGo, replaceAllGo]
        by_cases hp : (p0 :: ptl).isPrefixOf (c :: rest) = true
        · rw [if_pos hp, if_pos hp,
            ih g (rest.drop ptl.length) (le_trans hd hs) (le_trans hd hs2)]
        · rw [if_neg hp, if_neg hp, ih g rest hs hs2]

theorem replaceAll_nil (p0 : Char) (ptl rep : List Char) :
    replaceAll p0 ptl rep [] = [] := rfl

theorem replaceAll_cons_pos (p0 : Char) (ptl rep : List Char) (c : Char) (rest : List Char)
    (h : (p0 :: ptl).isPrefixOf (c :: rest) = true) :
    replaceAll p0 ptl rep (c :: rest) = rep ++ replaceAll p0 ptl rep (rest.drop ptl.length) := by
  have hd : (rest.drop ptl.length).length ≤ rest.length := by
    rw [List.length_drop]
    omega
  show replaceAllGo p0 ptl rep (rest.length + 1) (c :: rest) = _
  rw [replaceAllGo, if_pos h]
  rw [replaceAllGo_fuel p0 ptl rep rest.length (rest.drop ptl.length).length
    (rest.drop ptl.length) hd le_rfl]
  rfl

theorem replaceAll_cons_neg (p0 : Char) (ptl rep : List Char) (c : Char) (rest : List Char)
    (h : (p0 :: ptl).isPrefixOf (c :: rest) = false) :
    replaceAll p0 ptl rep (c :: rest) = c :: replaceAll p0 ptl rep rest := by
  show replaceAllGo p0 ptl rep (rest.length + 1) (c :: rest) = _
  rw [replaceAllGo, if_neg (by simp [h])]
  rfl

theorem replaceAll_append_csv (rep : List Char) (base : List Char)
    (h : hasOccur 'c' ['s', 'v'] base = false) :
    replaceAll 'c' ['s', 'v'] rep (base ++ ('.' :: 'c' :: 's' :: 'v' :: [])) =
      base ++ ('.' :: rep) := by
  induction base with
  | nil =>
    rw [List.nil_append, replaceAll_cons_neg _ _ _ _ _ (by decide),
      replaceAll_cons_pos _ _ _ _ _ (by decide)]
    simp [replaceAll_nil]
  | cons c bs ih =>
    rw [hasOccur, Bool.or_eq_false_iff] at h
    obtain ⟨h1, h2⟩ := h
    have hpre : (('c' :: ['s', 'v']).isPrefixOf
        (c :: (bs ++ ('.' :: 'c' :: 's' :: 'v' :: [])))) = false := by
      cases bs with
      | nil => simp [List.isPrefixOf]
      | cons b1 bs1 =>
        cases bs1 with
        | nil => simp [List.isPrefixOf]
        | cons b2 bs2 =>
          simp only [List.isPrefixOf, Bool.and_eq_false_iff] at h1 ⊢
          simpa using h1
    rw [List.cons_append, replaceAll_cons_neg _ _ _ _ _ hpre, ih h2, List.cons_append]

theorem strDataAppend (a b : String) : (a ++ b).data = a.data ++ b.data := by
  cases a
  cases b
  rfl

/-- Claim C7 is refuted at this input: for the row-file path
"/data/csv_logs/run.csv" the tree path actually computed rewrites the 'csv'
inside the directory name as well, instead of leaving everything but the
extension unchanged. -/
theorem json_path_counterexample :
    json_path "/data/csv_logs/run.csv" = "/data/hierarchy.json_logs/run.hierarchy.json" ∧
    json_path "/data/csv_logs/run.csv" ≠ "/data/csv_logs/run.hierarchy.json" := by
  constructor
  · decide
  · decide

/-- Claim C7 as amended: the tree path is obtained by replacing every
occurrence of the substring 'csv' in the row file's path with
'hierarchy.json' (Python str.replace), not only the extension marker; when
'csv' occurs nowhere in the path except as the final ".csv" extension, this
coincides with replacing just the extension. -/
theorem json_path_amended_spec (base : String)
    (h : hasOccur 'c' ['s', 'v'] base.data = false) :
    json_path (base ++ ".csv") = base ++ ".hierarchy.json" := by
  apply String.ext
  show replaceAll 'c' ['s', 'v'] "hierarchy.json".data (base ++ ".csv").data
      = (base ++ ".hierarchy.json").data
  rw [strDataAppend, strDataAppend]
  have e1 : (".csv" : String).data = ('.' :: 'c' :: 's' :: 'v' :: []) := rfl
  have e2 : (".hierarchy.json" : String).data = ('.' :: "hierarchy.json".data) := rfl
  rw [e1, e2]
  exact replaceAll_append_csv "hierarchy.json".data base.data h

/-- Claim C7, witness for the amended statement: a path whose only 'csv' is
the extension gets exactly its extension replaced. -/
theorem json_path_amended_witness :
    json_path ("/data/run" ++ ".csv") = "/data/run" ++ ".hierarchy.json" :=
  json_path_amended_spec "/data/run" (by decide)

theorem allStopped_children (n : TimerNode) (h : allStopped n = true) :
    allStoppedList n.children = true := by
  obtain ⟨cs, st, tot, cnt⟩ := n
  rw [allStopped, Bool.and_eq_true] at h
  exact h.2

theorem allStopped_not_running (n : TimerNode) (h : allStopped n = true) :
    n._is_running = false := by
  obtain ⟨cs, st, tot, cnt⟩ := n
  rw [allStopped, Bool.and_eq_true] at h
  have := of_decide_eq_true h.1
  simp [TimerNode._is_running, this]

theorem allStoppedList_append (xs ys : List (String × TimerNode)) :
    allStoppedList (xs ++ ys) = (allStoppedList xs && allStoppedList ys) := by
  induction xs with
  | nil => simp [allStoppedList]
  | cons kv rest ih =>
    obtain ⟨k, v⟩ := kv
    rw [List.cons_append, allStoppedList, allStoppedList, ih, Bool.and_assoc]

theorem allStoppedList_lookup (cs : List (String × TimerNode)) (a : String) (c : TimerNode)
    (h : allStoppedList cs = true) (hl : lookupChild cs a = some c) :
    allStopped c = true := by
  induction cs with
  | nil => simp [lookupChild] at hl
  | cons kv rest ih =>
    obtain ⟨k, v⟩ := kv
    rw [allStoppedList, Bool.and_eq_true] at h
    rw [lookupChild] at hl
    by_cases hk : k = a
    · rw [if_pos hk] at hl
      cases hl
      exact h.1
    · rw [if_neg hk] at hl
      exact ih h.2 hl

theorem aseF_updateChild (a : String) (cs : List (String × TimerNode))
    (g : TimerNode → TimerNode) (h : allStoppedExceptFirst a cs = true) :
    allStoppedExceptFirst a (updateChild cs a g) = true := by
  induction cs with
  | nil => simp [updateChild, allStoppedExceptFirst]
  | cons kv rest ih =>
    obtain ⟨k, v⟩ := kv
    rw [allStoppedExceptFirst] at h
    rw [updateChild]
    by_cases hk : k = a
    · rw [if_pos hk] at h ⊢
      rw [allStoppedExceptFirst, if_pos hk]
      exact h
    · rw [if_neg hk] at h ⊢
      rw [Bool.and_eq_true] at h
      rw [allStoppedExceptFirst, if_neg hk, Bool.and_eq_true]
      exact ⟨h.1, ih h.2⟩

theorem asList_to_aseF_updateChild (a : String) (cs : List (String × TimerNode))
    (g : TimerNode → TimerNode) (h : allStoppedList cs = true) :
    allStoppedExceptFirst a (updateChild cs a g) = true := by
  induction cs with
  | nil => simp [updateChild, allStoppedExceptFirst]
  | cons kv rest ih =>
    obtain ⟨k, v⟩ := kv
    rw [allStoppedList, Bool.and_eq_true] at h
    rw [updateChild]
    by_cases hk : k = a
    · rw [if_pos hk, allStoppedExceptFirst, if_pos hk]
      exact h.2
    · rw [if_neg hk, allStoppedExceptFirst, if_neg hk, Bool.and_eq_true]
      exact ⟨h.1, ih h.2⟩

theorem asList_updateChild_stop (a : String) (cs : List (String × TimerNode))
    (c : TimerNode) (g : TimerNode → TimerNode)
    (h : allStoppedExceptFirst a cs = true) (hl : lookupChild cs a = some c)
    (hg : allStopped (g c) = true) :
    allStoppedList (updateChild cs a g) = true := by
  induction cs with
  | nil => simp [lookupChild] at hl
  | cons kv rest ih =>
    obtain ⟨k, v⟩ := kv
    rw [allStoppedExceptFirst] at h
    rw [lookupChild] at hl
    rw [updateChild]
    by_cases hk : k = a
    · rw [if_pos hk] at h hl ⊢
      cases hl
      rw [allStoppedList, Bool.and_eq_true]
      exact ⟨hg, h⟩
    · rw [if_neg hk] at h hl ⊢
      rw [Bool.and_eq_true] at h
      rw [allStoppedList, Bool.and_eq_true]
      exact ⟨h.1, ih h.2 hl⟩

theorem RunOK_lookup : ∀ (t : List String) (n : TimerNode), RunOK n t = true →
    ∃ cur, lookupPath n t = some cur ∧ RunOK cur [] = true := by
  intro t
  induction t with
  | nil => intro n h; exact ⟨n, rfl, h⟩
  | cons a rest ih =>
    intro n h
    rw [RunOK, Bool.and_eq_true, Bool.and_eq_true] at h
    obtain ⟨⟨hrun, hmatch⟩, haseF⟩ := h
    cases hl : lookupChild n.children a with
    | none => rw [hl] at hmatch; simp at hmatch
    | some c =>
      rw [hl] at hmatch
      obtain ⟨cur, hcur, h0⟩ := ih c hmatch
      exact ⟨cur, by simp [lookupPath, hl, hcur], h0⟩

theorem StackChain_getLast (st : List (List String)) (t : List String)
    (h : StackChain st t) : st.getLast? = some t := by
  induction h with
  | root => rfl
  | step st2 t2 name _ _ => exact List.getLast?_concat _

theorem StackChain_head (st : List (List String)) (t : List String)
    (h : StackChain st t) : st.head? = some [] := by
  induction h with
  | root => rfl
  | step st2 t2 name _ ih =>
    cases st2 with
    | nil => simp at ih
    | cons x xs => simpa using ih

theorem pop_concat (r : TimerNode) (st : List (List String)) (x : List String) :
    TimerStack.pop ⟨r, st ++ [x]⟩ = some ⟨r, st⟩ := by
  cases st with
  | nil => rfl
  | cons y ys =>
    simp only [List.cons_append, TimerStack.pop]
    have hdl : (y :: (ys ++ [x])).dropLast = y :: ys := by
      rw [← List.cons_append, List.dropLast_concat]
    rw [hdl]

theorem allStopped_initNode : allStopped TimerNode.initNode = true := by
  simp [TimerNode.initNode, allStopped, allStoppedList]

theorem RunOK_insert (name : String) :
    ∀ (t : List String) (r cur : TimerNode),
      RunOK r t = true → lookupPath r t = some cur →
      lookupChild cur.children name = none →
      RunOK (updatePath r t (fun m =>
        TimerNode.mk (m.children ++ [(name, TimerNode.initNode)])
          m._start_time m.total m.count)) t = true := by
  intro t
  induction t with
  | nil =>
    intro r cur hR hc _
    rw [lookupPath] at hc
    cases hc
    rw [RunOK, Bool.and_eq_true] at hR
    simp only [updatePath, RunOK, TimerNode.children_mk, Bool.and_eq_true]
    refine ⟨?_, ?_⟩
    · simpa [TimerNode._is_running] using hR.1
    · rw [allStoppedList_append, Bool.and_eq_true]
      refine ⟨hR.2, ?_⟩
      rw [allStoppedList, allStoppedList, Bool.and_eq_true]
      exact ⟨allStopped_initNode, rfl⟩
  | cons a rest ih =>
    intro r cur hR hc hnone
    rw [RunOK, Bool.and_eq_true, Bool.and_eq_true] at hR
    obtain ⟨⟨hrun, hmatch⟩, haseF⟩ := hR
    cases hl : lookupChild r.children a with
    | none => rw [hl] at hmatch; simp at hmatch
    | some ca =>
      rw [hl] at hmatch
      rw [lookupPath, hl] at hc
      simp only [updatePath, RunOK, TimerNode.children_mk, Bool.and_eq_true]
      refine ⟨⟨?_, ?_⟩, ?_⟩
      · simpa [TimerNode._is_running] using hrun
      · rw [lookupChild_updateChild, hl]
        exact ih ca cur hmatch hc hnone
      · exact aseF_updateChild a r.children _ haseF

theorem RunOK_start_ext (name : String) (n2 : TimerNode)
    (hrun2 : n2._is_running = true) (hch2 : allStoppedList n2.children = true) :
    ∀ (t : List String) (r c : TimerNode),
      RunOK r t = true → lookupPath r (t ++ [name]) = some c → allStopped c = true →
      RunOK (updatePath r (t ++ [name]) (fun _ => n2)) (t ++ [name]) = true := by
  intro t
  induction t with
  | nil =>
    intro r c hR hc _
    rw [RunOK, Bool.and_eq_true] at hR
    rw [List.nil_append] at hc ⊢
    rw [lookupPath] at hc
    cases hl : lookupChild r.children name with
    | none => rw [hl] at hc; simp at hc
    | some c0 =>
      rw [hl] at hc
      simp only [lookupPath, Option.some.injEq] at hc
      subst hc
      simp only [updatePath, RunOK, TimerNode.children_mk, Bool.and_eq_true]
      refine ⟨⟨?_, ?_⟩, ?_⟩
      · simpa [TimerNode._is_running] using hR.1
      · rw [lookupChild_updateChild, hl]
        show RunOK n2 [] = true
        rw [RunOK, Bool.and_eq_true]
        exact ⟨hrun2, hch2⟩
      · exact asList_to_aseF_updateChild name r.children _ hR.2
  | cons a rest ih =>
    intro r c hR hc hstop
    rw [List.cons_append] at hc ⊢
    rw [RunOK, Bool.and_eq_true, Bool.and_eq_true] at hR
    obtain ⟨⟨hrun, hmatch⟩, haseF⟩ := hR
    cases hl : lookupChild r.children a with
    | none => rw [hl] at hmatch; simp at hmatch
    | some ca =>
      rw [hl] at hmatch
      rw [lookupPath, hl] at hc
      simp only [updatePath, RunOK, TimerNode.children_mk, Bool.and_eq_true]
      refine ⟨⟨?_, ?_⟩, ?_⟩
      · simpa [TimerNode._is_running] using hrun
      · rw [lookupChild_updateChild, hl]
        exact ih ca c hmatch hc hstop
      · exact aseF_updateChild a r.children _ haseF

theorem RunOK_end_drop (name : String) (n4 : TimerNode) (hstop4 : allStopped n4 = true) :
    ∀ (t : List String) (r : TimerNode),
      RunOK r (t ++ [name]) = true →
      RunOK (updatePath r (t ++ [name]) (fun _ => n4)) t = true := by
  intro t
  induction t with
  | nil =>
    intro r hR
    rw [List.nil_append] at hR ⊢
    rw [RunOK, Bool.and_eq_true, Bool.and_eq_true] at hR
    obtain ⟨⟨hrun, hmatch⟩, haseF⟩ := hR
    cases hl : lookupChild r.children name with
    | none => rw [hl] at hmatch; simp at hmatch
    | some c =>
      rw [hl] at hmatch
      simp only [updatePath, RunOK, TimerNode.children_mk, Bool.and_eq_true]
      refine ⟨?_, ?_⟩
      · simpa [TimerNode._is_running] using hrun
      · exact asList_updateChild_stop name r.children c _ haseF hl hstop4
  | cons a rest ih =>
    intro r hR
    rw [List.cons_append] at hR ⊢
    rw [RunOK, Bool.and_eq_true, Bool.and_eq_true] at hR
    obtain ⟨⟨hrun, hmatch⟩, haseF⟩ := hR
    cases hl : lookupChild r.children a with
    | none => rw [hl] at hmatch; simp at hmatch
    | some ca =>
      rw [hl] at hmatch
      simp only [updatePath, RunOK, TimerNode.children_mk, Bool.and_eq_true]
      refine ⟨⟨?_, ?_⟩, ?_⟩
      · simpa [TimerNode._is_running] using hrun
      · rw [lookupChild_updateChild, hl]
        exact ih ca hmatch
      · exact aseF_updateChild a r.children _ haseF

theorem runP_ok (clock : ℕ → ℚ) (hclock : ∀ i, 0 ≤ clock i) (p : Prog) :
    ∀ (k : ℕ) (r : TimerNode) (st : List (List String)) (t : List String),
      StackChain st t → RunOK r t = true →
      ∃ r2 k2 tr, runP clock p k ⟨r, st⟩ = some (⟨r2, st⟩, k2, tr) ∧
        RunOK r2 t = true ∧ ∀ m ∈ tr, ∃ u, StackChain m.stack u := by
  induction p with
  | skip =>
    intro k r st t hchain hR
    exact ⟨r, k, [], rfl, hR, by simp⟩
  | seq p1 q1 ihp ihq =>
    intro k r st t hchain hR
    obtain ⟨r1, k1, tr1, h1, hR1, htr1⟩ := ihp k r st t hchain hR
    obtain ⟨r2, k2, tr2, h2, hR2, htr2⟩ := ihq k1 r1 st t hchain hR1
    refine ⟨r2, k2, tr1 ++ tr2, ?_, hR2, ?_⟩
    · simp only [runP, h1, h2]
    · intro m hm
      rcases List.mem_append.mp hm with h | h
      exacts [htr1 m h, htr2 m h]
  | region name body ih =>
    intro k r st t hchain hR
    have hlast : st.getLast? = some t := StackChain_getLast st t hchain
    obtain ⟨cur, hcur, hcur0⟩ := RunOK_lookup t r hR
    rw [RunOK, Bool.and_eq_true] at hcur0
    obtain ⟨r1, c1, hpush, hR1, hlk1, hstop1⟩ :
        ∃ r1 c1, TimerStack.push ⟨r, st⟩ name = some (⟨r1, st ++ [t ++ [name]]⟩, c1) ∧
          RunOK r1 t = true ∧ lookupPath r1 (t ++ [name]) = some c1 ∧
          allStopped c1 = true := by
      cases hcc : lookupChild cur.children name with
      | some c =>
        refine ⟨r, c, ?_, hR, ?_, ?_⟩
        · simp only [TimerStack.push, hlast, hcur, hcc]
        · rw [lookupPath_append, hcur]
          simp [lookupPath, hcc]
        · exact allStoppedList_lookup cur.children name c hcur0.2 hcc
      | none =>
        refine ⟨updatePath r t (fun m =>
            TimerNode.mk (m.children ++ [(name, TimerNode.initNode)])
              m._start_time m.total m.count), TimerNode.initNode, ?_, ?_, ?_, ?_⟩
        · simp only [TimerStack.push, hlast, hcur, hcc]
        · exact RunOK_insert name t r cur hR hcur hcc
        · rw [lookupPath_append, lookupPath_updatePath, hcur]
          simp [lookupPath, lookupChild_append_of_none cur.children name TimerNode.initNode hcc]
        · exact allStopped_initNode
    have hnr1 : c1._is_running = false := allStopped_not_running c1 hstop1
    have hck : clock k ≠ -1 := by
      have h0 := hclock k
      intro e
      rw [e] at h0
      norm_num at h0
    have hst1 : c1._start (clock k) = some (.mk c1.children (clock k) c1.total c1.count) := by
      simp [TimerNode._start, hnr1]
    have hstart : TimerStack.startTop ⟨r1, st ++ [t ++ [name]]⟩ (clock k) =
        some ⟨updatePath r1 (t ++ [name])
          (fun _ => TimerNode.mk c1.children (clock k) c1.total c1.count),
          st ++ [t ++ [name]]⟩ := by
      simp only [TimerStack.startTop, List.getLast?_concat, hlk1, hst1]
    have hrun2 : (TimerNode.mk c1.children (clock k) c1.total c1.count)._is_running = true := by
      simp [TimerNode._is_running, hck]
    have hch2 : allStoppedList (TimerNode.mk c1.children (clock k) c1.total c1.count).children
        = true := allStopped_children c1 hstop1
    have hR2 : RunOK (updatePath r1 (t ++ [name])
        (fun _ => TimerNode.mk c1.children (clock k) c1.total c1.count)) (t ++ [name]) = true :=
      RunOK_start_ext name _ hrun2 hch2 t r1 c1 hR1 hlk1 hstop1
    have hchain2 : StackChain (st ++ [t ++ [name]]) (t ++ [name]) :=
      StackChain.step st t name hchain
    obtain ⟨r3, k3, tr3, h3, hR3, htr3⟩ :=
      ih (k + 1) (updatePath r1 (t ++ [name])
        (fun _ => TimerNode.mk c1.children (clock k) c1.total c1.count))
        (st ++ [t ++ [name]]) (t ++ [name]) hchain2 hR2
    obtain ⟨n3, hn3, hn30⟩ := RunOK_lookup (t ++ [name]) r3 hR3
    rw [RunOK, Bool.and_eq_true] at hn30
    have hend3 : n3._end (clock k3) =
        some (.mk n3.children (-1) (n3.total + (clock k3 - n3._start_time)) (n3.count + 1)) := by
      simp [TimerNode._end, hn30.1]
    have hstop4 : allStopped (TimerNode.mk n3.children (-1)
        (n3.total + (clock k3 - n3._start_time)) (n3.count + 1)) = true := by
      rw [allStopped, Bool.and_eq_true]
      exact ⟨by decide, hn30.2⟩
    have hend : TimerStack.endTop ⟨r3, st ++ [t ++ [name]]⟩ (clock k3) =
        some ⟨updatePath r3 (t ++ [name]) (fun _ => TimerNode.mk n3.children (-1)
          (n3.total + (clock k3 - n3._start_time)) (n3.count + 1)), st ++ [t ++ [name]]⟩ := by
      simp only [TimerStack.endTop, TimerStack.endAt, List.getLast?_concat, hn3, hend3]
    have hR4 : RunOK (updatePath r3 (t ++ [name]) (fun _ => TimerNode.mk n3.children (-1)
        (n3.total + (clock k3 - n3._start_time)) (n3.count + 1))) t = true :=
      RunOK_end_drop name _ hstop4 t r3 hR3
    have hpop : TimerStack.pop ⟨updatePath r3 (t ++ [name]) (fun _ => TimerNode.mk n3.children
        (-1) (n3.total + (clock k3 - n3._start_time)) (n3.count + 1)), st ++ [t ++ [name]]⟩ =
        some ⟨updatePath r3 (t ++ [name]) (fun _ => TimerNode.mk n3.children (-1)
          (n3.total + (clock k3 - n3._start_time)) (n3.count + 1)), st⟩ :=
      pop_concat _ st _
    refine ⟨updatePath r3 (t ++ [name]) (fun _ => TimerNode.mk n3.children (-1)
        (n3.total + (clock k3 - n3._start_time)) (n3.count + 1)), k3 + 1,
      ⟨r1, st ++ [t ++ [name]]⟩ ::
        ⟨updatePath r1 (t ++ [name])
          (fun _ => TimerNode.mk c1.children (clock k) c1.total c1.count),
          st ++ [t ++ [name]]⟩ ::
        tr3 ++ [⟨updatePath r3 (t ++ [name]) (fun _ => TimerNode.mk n3.children (-1)
            (n3.total + (clock k3 - n3._start_time)) (n3.count + 1)), st ++ [t ++ [name]]⟩,
          ⟨updatePath r3 (t ++ [name]) (fun _ => TimerNode.mk n3.children (-1)
            (n3.total + (clock k3 - n3._start_time)) (n3.count + 1)), st⟩],
      ?_, hR4, ?_⟩
    · simp only [runP, hpush, hstart, h3, hend, hpop]
    · intro m hm
      rcases List.mem_cons.mp hm with rfl | hm
      · exact ⟨t ++ [name], hchain2⟩
      rcases List.mem_cons.mp hm with rfl | hm
      · exact ⟨t ++ [name], hchain2⟩
      rcases List.mem_append.mp hm with hm | hm
      · exact htr3 m hm
      rcases List.mem_cons.mp hm with rfl | hm
      · exact ⟨t ++ [name], hchain2⟩
      rcases List.mem_cons.mp hm with rfl | hm
      · exact ⟨t, hchain⟩
      · simp at hm

/-- Claim C6: for every properly nested sequence of
push/start/.../end/pop operations (the Prog language) run from a freshly
constructed TimerStack, execution succeeds, the active path returns to
exactly length 1 at the end, and the root (the node at path [], the first
stack element) is the first element of the active path throughout — in the
final state and in every intermediate state of the trace.  The clock
hypotheses say that perf_counter() readings are nonnegative (so a reading
never equals the -1.0 "not running" sentinel). -/
theorem balanced_run_restores_active_path (p : Prog) (clock : ℕ → ℚ) (t0 : ℚ)
    (hclock : ∀ i, 0 ≤ clock i) (ht0 : 0 ≤ t0) :
    ∃ r2 k2 tr, runP clock p 0 (TimerStack.initTS t0) = some (⟨r2, [[]]⟩, k2, tr) ∧
      (⟨r2, [[]]⟩ : TimerStack).stack.length = 1 ∧
      (⟨r2, [[]]⟩ : TimerStack).stack.head? = some [] ∧
      ∀ m ∈ tr, m.stack.head? = some [] := by
  have ht0' : t0 ≠ -1 := by
    intro e
    rw [e] at ht0
    norm_num at ht0
  have hR0 : RunOK (TimerNode.mk [] t0 0 0) [] = true := by
    rw [RunOK, Bool.and_eq_true]
    exact ⟨by simp [TimerNode._is_running, ht0'], rfl⟩
  obtain ⟨r2, k2, tr, hrun, hR2, htr⟩ :=
    runP_ok clock hclock p 0 (TimerNode.mk [] t0 0 0) [[]] [] StackChain.root hR0
  refine ⟨r2, k2, tr, hrun, rfl, rfl, ?_⟩
  intro m hm
  obtain ⟨u, hu⟩ := htr m hm
  exact StackChain_head m.stack u hu

/-- Claim C6, witness: one region "a" entered and exited on a fresh stack
with the constant clock 1. -/
theorem balanced_run_witness :
    ∃ r2 k2 tr, runP (fun _ => 1) (Prog.region "a" Prog.skip) 0 (TimerStack.initTS 0) =
        some (⟨r2, [[]]⟩, k2, tr) ∧
      (⟨r2, [[]]⟩ : TimerStack).stack.length = 1 ∧
      (⟨r2, [[]]⟩ : TimerStack).stack.head? = some [] ∧
      ∀ m ∈ tr, m.stack.head? = some [] :=
  balanced_run_restores_active_path (Prog.region "a" Prog.skip) (fun _ => 1) 0
    (fun _ => by norm_num) (by norm_num)
